import Mathlib

/-!
Verification of the Akkordio fingering-assignment engine against its source
(the Phase III engine pseudocode, v3.4, together with the constants declared
in the phase-5 plan's `CostCalculator`).  The engine is an A* search over hand
configurations; events, fingers, buttons and costs are embedded below and the
pseudocode's functions are translated one-to-one.  Real-valued arithmetic
(Euclidean distances via square roots) is modelled over `ℝ`.
-/

open scoped Classical

namespace Akkordio

/-- Bellows direction: `push`/`pull`, with `neutral` the resting state
(`BELLOWS_NEUTRAL` in the pseudocode). -/
inductive Bellows where
  | push
  | pull
  | neutral
deriving DecidableEq

/-- One note of a musical event: MIDI pitch and the `tied_from_prev` flag. -/
structure Note where
  midi : Int
  tied_from_prev : Bool
deriving DecidableEq

/-- One time-slice of the score: `notes[]`, `bellows_direction` (optional) and
the metric-strength flag `is_downbeat`. -/
structure MusicalEvent where
  notes : List Note
  bellows_direction : Option Bellows
  is_downbeat : Bool

/-- An integer (row, column) coordinate of a button on the keyboard layout. -/
structure ButtonPosition where
  row : Int
  col : Int
deriving DecidableEq

/-- State of one finger: `FREE`, or pressing a button that sounds a MIDI
pitch.  (The pseudocode's fingers carry the `midi_note` they hold and their
button; a free finger carries nothing.) -/
inductive FingerState where
  | free
  | pressing (midi : Int) (button : ButtonPosition)
deriving DecidableEq

/-- The per-node search data of the pseudocode's `NodeState`, parent pointer
excluded: time index of the last fingered event, the five fingers (index
`i : Fin 5` stands for anatomical finger `i+1`), the Phase II physical fields
(`centroid`, `span`, `bellows`) and the A* scores. -/
structure NodeData where
  time_index : Int
  fingers : Fin 5 → FingerState
  centroid_row : ℝ
  centroid_col : ℝ
  span_width_mm : ℝ
  bellows_state : Bellows
  g_score : ℝ
  h_score : ℝ
  f_score : ℝ

/-- A full A* search vertex: the node data plus the parent back-pointer used
by `reconstructPath`.  The chain of ancestors is stored nearest-first, which
carries exactly the information of the pseudocode's `parent` pointer chain. -/
structure NodeState extends NodeData where
  parent : List NodeData

/-- Physical constant `ROW_SPACING_MM` from the plan's `CostCalculator`. -/
def ROW_SPACING_MM : ℝ := 15

/-- Physical constant `COL_SPACING_MM` from the plan's `CostCalculator`. -/
def COL_SPACING_MM : ℝ := 18

/-- Anatomical limit `MAX_HAND_SPAN_MM` from the plan's `CostCalculator`. -/
def MAX_HAND_SPAN_MM : ℝ := 150

/-- Weight `WEIGHT_DISTANCE` from the plan's `CostCalculator`. -/
def WEIGHT_DISTANCE : ℝ := 1

/-- Weight `WEIGHT_ROW_JUMP` from the plan's `CostCalculator`. -/
def WEIGHT_ROW_JUMP : ℝ := 2

/-- Penalty `PENALTY_CROSSING` from the plan's `CostCalculator`. -/
def PENALTY_CROSSING : ℝ := 50

/-- Bonus fraction `BONUS_BELLOWS_SHIFT` from the plan's `CostCalculator`. -/
def BONUS_BELLOWS_SHIFT : ℝ := 0.7

/-- Tunables of the cost model whose numeric content the source references
but never defines (the spec lists them as open questions): the crossing
severity formula, the `ENABLE_FINGER_STRENGTH_BIAS` switch, the pivot
reduction factor `FACTOR_PIVOT_REDUCTION`, and the pruning predicate
`isGeometricInversionImpossible` (described only by example). -/
structure CostConfig where
  severity : (Fin 5 → FingerState) → ℝ
  enableFingerStrengthBias : Bool
  factorPivotReduction : ℝ

/-- Whether a finger state is currently holding the given MIDI pitch. -/
def isHolding : FingerState → Int → Bool
  | FingerState.free, _ => false
  | FingerState.pressing m _, m' => m = m'

/-- The pseudocode's `current_holding_map` lookup: the first finger of the
hand currently holding the given MIDI pitch, if any. -/
def findHolder (fingers : Fin 5 → FingerState) (m : Int) : Option (Fin 5) :=
  (List.finRange 5).find? (fun i => isHolding (fingers i) m)

/-- Step A of `generateSuccessors`: walk the event's notes, collecting the
finger locked by each `tied_from_prev` note; `none` models the early
`return []` taken when a tied note has no holding finger. -/
def lockedFingers (c : NodeState) : List Note → Option (List (Fin 5))
  | [] => some []
  | note :: rest =>
    if note.tied_from_prev then
      match findHolder c.fingers note.midi with
      | some i => (lockedFingers c rest).map (fun l => i :: l)
      | none => none
    else lockedFingers c rest

/-- Steps C and D of `generateSuccessors`: enumerate every way to assign the
free fingers, injectively, to the new notes paired with one of their
candidate buttons (`permutate(free_fingers, button_permutations)`).  The
layout oracle `layout` yields `getPhysicalButtonOptions(note.midi)`. -/
def assignmentsFor (layout : Int → List ButtonPosition) :
    List (Fin 5) → List Note → List (List (Fin 5 × Note × ButtonPosition))
  | _, [] => [[]]
  | free, note :: rest =>
      free.flatMap (fun f =>
        (layout note.midi).flatMap (fun b =>
          (assignmentsFor layout (free.erase f) rest).map
            (fun tail => (f, note, b) :: tail)))

/-- Re-application of the locked fingers onto the cloned hand
(`next_node.fingers[lf.index] = lf`). -/
def applyLocked (c : NodeState) (locked : List (Fin 5)) : Fin 5 → FingerState :=
  locked.foldl (fun fs i => Function.update fs i (c.fingers i)) c.fingers

/-- The pseudocode's `next_node.updateFingers(assignment)`: press each
assigned button with its assigned finger. -/
def applyAssignment (fs : Fin 5 → FingerState) :
    List (Fin 5 × Note × ButtonPosition) → Fin 5 → FingerState
  | [] => fs
  | (f, n, b) :: rest =>
      applyAssignment (Function.update fs f (FingerState.pressing n.midi b)) rest

/-- Buttons occupied by the non-free fingers, in finger order. -/
def activeButtons (fs : Fin 5 → FingerState) : List ButtonPosition :=
  (List.finRange 5).filterMap (fun i =>
    match fs i with
    | FingerState.free => none
    | FingerState.pressing _ b => some b)

/-- Indices of the non-free fingers (`next_node.active_fingers`). -/
def activeIndices (fs : Fin 5 → FingerState) : List (Fin 5) :=
  (List.finRange 5).filter (fun i =>
    match fs i with
    | FingerState.free => false
    | FingerState.pressing _ _ => true)

/-- Centroid row of the non-free fingers (part of `recalculateGeometry`). -/
noncomputable def centroidRow (fs : Fin 5 → FingerState) : ℝ :=
  ((activeButtons fs).map (fun b => (b.row : ℝ))).sum / (activeButtons fs).length

/-- Centroid column of the non-free fingers (part of `recalculateGeometry`). -/
noncomputable def centroidCol (fs : Fin 5 → FingerState) : ℝ :=
  ((activeButtons fs).map (fun b => (b.col : ℝ))).sum / (activeButtons fs).length

/-- Physical distance of two buttons: the pseudocode's `calculateSpanMM`
kernel `sqrt(d_row^2 + d_col^2)` with row and column deltas scaled by the
spacing constants. -/
noncomputable def pairSpan (a b : ButtonPosition) : ℝ :=
  Real.sqrt ((((a.row : ℝ) - (b.row : ℝ)) * ROW_SPACING_MM) ^ 2 +
    (((a.col : ℝ) - (b.col : ℝ)) * COL_SPACING_MM) ^ 2)

/-- All unordered pairs of a list, used for the maximum pairwise span. -/
def allPairs : List ButtonPosition → List (ButtonPosition × ButtonPosition)
  | [] => []
  | x :: xs => (xs.map (fun y => (x, y))) ++ allPairs xs

/-- The pseudocode's `calculateSpanMM(node)`: maximum pairwise physical
distance among the non-free fingers (zero when fewer than two are active). -/
noncomputable def calculateSpanMM (fs : Fin 5 → FingerState) : ℝ :=
  (((allPairs (activeButtons fs)).map (fun p => pairSpan p.1 p.2))).foldr max 0

/-- The pseudocode's `isGeometricInversion`: some lower-index finger occupies
a strictly higher column than some higher-index finger. -/
def isGeometricInversion (fs : Fin 5 → FingerState) : Bool :=
  (List.finRange 5).any (fun i =>
    (List.finRange 5).any (fun j =>
      decide (i < j) &&
      (match fs i, fs j with
       | FingerState.pressing _ bi, FingerState.pressing _ bj => decide (bj.col < bi.col)
       | _, _ => false)))

/-- Modelled from the spec: `hasPivotFinger` is named but not defined in the
pseudocode; the spec's glossary defines a pivot finger as "a finger that
remains on the same button across a transition". -/
def hasPivotFinger (prev next : NodeState) : Bool :=
  (List.finRange 5).any (fun i =>
    match prev.fingers i, next.fingers i with
    | FingerState.pressing _ b1, FingerState.pressing _ b2 => decide (b1 = b2)
    | _, _ => false)

/-- The pseudocode's `getFingerWeaknessTable` (1-based fingers 1..5 map to
`Fin 5` indices 0..4): 0.0, 0.0, 0.1, 0.8, 0.4. -/
noncomputable def getFingerWeaknessTable : Fin 5 → ℝ
  | 0 => 0
  | 1 => 0
  | 2 => 0.1
  | 3 => 0.8
  | 4 => 0.4

/-- Total weakness penalty over the active fingers of a hand. -/
noncomputable def weaknessPenalty (fs : Fin 5 → FingerState) : ℝ :=
  ((activeIndices fs).map getFingerWeaknessTable).sum

/-- Euclidean distance between hand centroids, row and column deltas scaled
by the spacing constants (`distance(prev_node.centroid, next_node.centroid)`). -/
noncomputable def centroidDistance (r1 c1 r2 c2 : ℝ) : ℝ :=
  Real.sqrt (((r1 - r2) * ROW_SPACING_MM) ^ 2 + ((c1 - c2) * COL_SPACING_MM) ^ 2)

/-- Whether the event specifies a bellows direction different from the
previous node's bellows state
(`current_bellows != null and current_bellows != prev_node.bellows_state`). -/
def bellowsChanged (event : MusicalEvent) (prev : NodeState) : Bool :=
  match event.bellows_direction with
  | some d => decide (d ≠ prev.bellows_state)
  | none => false

/-- The pseudocode's `calculateEdgeCost`, translated clause by clause:
additive costs (centroid distance and row jump), penalties (crossing and
optional finger weakness on downbeats), the pivot multiplier, the global
bellows-shift modifier on the additive cost, and the final clamp
`max(total_cost, 0.0)`. -/
noncomputable def calculateEdgeCost (cfg : CostConfig) (prev next : NodeState)
    (event : MusicalEvent) : ℝ :=
  let dist_mm := centroidDistance prev.centroid_row prev.centroid_col
    next.centroid_row next.centroid_col
  let cost_distance := dist_mm * WEIGHT_DISTANCE +
    |prev.centroid_row - next.centroid_row| * WEIGHT_ROW_JUMP
  let cost_penalty :=
    (if isGeometricInversion next.fingers then
      cfg.severity next.fingers * PENALTY_CROSSING else 0) +
    (if cfg.enableFingerStrengthBias && event.is_downbeat then
      weaknessPenalty next.fingers else 0)
  let multiplier : ℝ :=
    if hasPivotFinger prev next then cfg.factorPivotReduction else 1
  let cost_distance :=
    if bellowsChanged event prev then cost_distance * (1 - BONUS_BELLOWS_SHIFT)
    else cost_distance
  max (cost_distance * multiplier + cost_penalty) 0

/-- A candidate next node of `generateSuccessors`: `clone(current_node)`,
re-application of the locked fingers, `updateFingers(assignment)`, then
`recalculateGeometry()`.  All fields the pseudocode does not touch
(`time_index`, `bellows_state`, the scores, the parent) are inherited
unchanged from the clone. -/
noncomputable def buildSuccessor (c : NodeState) (locked : List (Fin 5))
    (a : List (Fin 5 × Note × ButtonPosition)) : NodeState :=
  let fs := applyAssignment (applyLocked c locked) a
  { c with
    fingers := fs
    centroid_row := centroidRow fs
    centroid_col := centroidCol fs
    span_width_mm := calculateSpanMM fs }

/-- The pseudocode's `generateSuccessors(current_node, target_event)`:
partition the event's notes into held and new (empty result when a tied note
has no holder), enumerate all free-finger/button assignments, build each
candidate node and apply the two physical hard filters (span limit and the
`isGeometricInversionImpossible` predicate `ip`, whose formula the source
leaves undefined and which is therefore a parameter). -/
noncomputable def generateSuccessors (layout : Int → List ButtonPosition)
    (ip : NodeState → Bool) (c : NodeState) (e : MusicalEvent) : List NodeState :=
  match lockedFingers c e.notes with
  | none => []
  | some locked =>
      let free := (List.finRange 5).filter (fun i => decide (i ∉ locked))
      let newNotes := e.notes.filter (fun n => !n.tied_from_prev)
      (assignmentsFor layout free newNotes).filterMap (fun a =>
        let nd := buildSuccessor c locked a
        if MAX_HAND_SPAN_MM < calculateSpanMM nd.fingers then none
        else if ip nd then none
        else some nd)

/-- Deduplication key of the closed set: the pseudocode hashes
`{time_index, finger_status[], button_ids[]}`. -/
def calculateHash (n : NodeState) : Int × List (Bool × Option ButtonPosition) :=
  (n.time_index,
    (List.finRange 5).map (fun i =>
      match n.fingers i with
      | FingerState.free => (false, none)
      | FingerState.pressing _ b => (true, some b)))

/-- The closed set: an association list from deduplication key to the stored
node data (the pseudocode's `closed_set` HashMap). -/
abbrev ClosedSet := List ((Int × List (Bool × Option ButtonPosition)) × NodeData)

/-- Lookup in the closed set (first, i.e. most recently added, entry wins). -/
def lookupClosed (closed : ClosedSet)
    (k : Int × List (Bool × Option ButtonPosition)) : Option NodeData :=
  (closed.find? (fun p => decide (p.1 = k))).map (fun p => p.2)

/-- The priority queue's `pop_lowest_f_score` on a non-empty open set:
returns the node of lowest `f_score` (first such on ties) and the rest. -/
noncomputable def popMin : NodeState → List NodeState → NodeState × List NodeState
  | best, [] => (best, [])
  | best, x :: xs =>
      if x.f_score < best.f_score then
        let r := popMin x xs
        (r.1, best :: r.2)
      else
        let r := popMin best xs
        (r.1, x :: r.2)

/-- The pseudocode's `reconstructPath`: the body is absent from the source
(named only); modelled from the spec, which reconstructs the path via parent
pointers, root first. -/
def reconstructPath (n : NodeState) : List NodeData :=
  n.parent.reverse ++ [n.toNodeData]

/-- The inner `for neighbor in candidates` loop of `computeFingerings`: score
each transition and push exactly the neighbors whose tentative path cost
`current.g_score + transition_cost` improves on the neighbor's own `g_score`,
updating their parent pointer and scores. -/
noncomputable def pushImproved (hfun : NodeState → List MusicalEvent → ℝ)
    (cfg : CostConfig) (events : List MusicalEvent) (current : NodeState)
    (target : MusicalEvent) (candidates : List NodeState) : List NodeState :=
  candidates.filterMap (fun neighbor =>
    let transition_cost := calculateEdgeCost cfg current neighbor target
    let tentative_g := current.g_score + transition_cost
    if tentative_g < neighbor.g_score then
      let h := hfun neighbor events
      some { neighbor with
        parent := current.toNodeData :: current.parent
        g_score := tentative_g
        h_score := h
        f_score := tentative_g + h }
    else none)

/-- Outcome of one iteration of the pathfinding loop. -/
inductive StepOut where
  | solution (chain : List NodeData)
  | failure
  | indexError
  | next (current : NodeState) (opens : List NodeState) (closed : ClosedSet)

/-- Expansion of a popped non-goal node: record it in the closed set, fetch
the next event (`indexError` models the out-of-range access that would raise
in the source language), generate and score successors, and push the improved
ones. -/
noncomputable def expandNode (layout : Int → List ButtonPosition)
    (hfun : NodeState → List MusicalEvent → ℝ) (ip : NodeState → Bool)
    (cfg : CostConfig) (events : List MusicalEvent) (current : NodeState)
    (rest : List NodeState) (closed : ClosedSet) : StepOut :=
  let closed' : ClosedSet := (calculateHash current, current.toNodeData) :: closed
  match events[(current.time_index + 1).toNat]? with
  | none => StepOut.indexError
  | some target =>
      let candidates := generateSuccessors layout ip current target
      let pushed := pushImproved hfun cfg events current target candidates
      StepOut.next current (rest ++ pushed) closed'

/-- One iteration of the pseudocode's `while open_set is not empty` loop: pop
the lowest-`f` node, goal-check it against the last event index, skip it when
an equal-or-better closed entry with the same hash exists, and otherwise
expand it. -/
noncomputable def searchStep (layout : Int → List ButtonPosition)
    (hfun : NodeState → List MusicalEvent → ℝ) (ip : NodeState → Bool)
    (cfg : CostConfig) (events : List MusicalEvent) :
    List NodeState → ClosedSet → StepOut
  | [], _ => StepOut.failure
  | x :: xs, closed =>
      let current := (popMin x xs).1
      let rest := (popMin x xs).2
      if current.time_index = (events.length : Int) - 1 then
        StepOut.solution (reconstructPath current)
      else
        match lookupClosed closed (calculateHash current) with
        | some stored =>
            if stored.g_score ≤ current.g_score then StepOut.next current rest closed
            else expandNode layout hfun ip cfg events current rest closed
        | none => expandNode layout hfun ip cfg events current rest closed

/-- Result of the search: a reconstructed path, `FAILURE` (no feasible path),
the modelled index error, or exhaustion of the fuel that bounds the loop in
this embedding. -/
inductive SearchResult where
  | solution (chain : List NodeData)
  | failure
  | indexError
  | outOfFuel

/-- The pathfinding loop, iterating `searchStep` with explicit fuel. -/
noncomputable def searchLoop (layout : Int → List ButtonPosition)
    (hfun : NodeState → List MusicalEvent → ℝ) (ip : NodeState → Bool)
    (cfg : CostConfig) (events : List MusicalEvent) :
    Nat → List NodeState → ClosedSet → SearchResult
  | 0, _, _ => SearchResult.outOfFuel
  | fuel + 1, opens, closed =>
      match searchStep layout hfun ip cfg events opens closed with
      | StepOut.solution ch => SearchResult.solution ch
      | StepOut.failure => SearchResult.failure
      | StepOut.indexError => SearchResult.indexError
      | StepOut.next _ o c => searchLoop layout hfun ip cfg events fuel o c

/-- The initial "Neutral Hand" state of `computeFingerings`: `time_index`
`-1`, five `FREE` fingers, centroid row 3 and column 0 (the pseudocode's
comment places this near the middle of the keyboard), zero span,
`BELLOWS_NEUTRAL`, `g_score` 0 and `f_score = heuristic(start_node, events)`.
The heuristic is an explicit parameter: the source leaves its formula open. -/
noncomputable def start_node (hfun : NodeState → List MusicalEvent → ℝ)
    (events : List MusicalEvent) : NodeState :=
  let base : NodeState :=
    { time_index := -1
      fingers := fun _ => FingerState.free
      centroid_row := 3
      centroid_col := 0
      span_width_mm := 0
      bellows_state := Bellows.neutral
      g_score := 0
      h_score := 0
      f_score := 0
      parent := [] }
  { base with h_score := hfun base events, f_score := hfun base events }

/-- The pseudocode's `computeFingerings`: initialize the A* structures with
the neutral start node and run the pathfinding loop.  `preprocessEvents`
belongs to the external parser, so the input is taken directly as the event
list; the loop fuel is explicit in this embedding. -/
noncomputable def computeFingerings (layout : Int → List ButtonPosition)
    (hfun : NodeState → List MusicalEvent → ℝ) (ip : NodeState → Bool)
    (cfg : CostConfig) (events : List MusicalEvent) (fuel : Nat) : SearchResult :=
  searchLoop layout hfun ip cfg events fuel [start_node hfun events] []

/-- Modelled from the spec: the facade's conversion of the accepted node
chain into the externally visible per-event assignment lists (the conversion
code itself is absent from the source).  Each node with a non-negative time
index accounts for one event; its assignments are the (finger, pitch, button)
triples of its non-free fingers. -/
def toSolution (chain : List NodeData) : List (List (Fin 5 × Int × ButtonPosition)) :=
  (chain.filter (fun d => decide (0 ≤ d.time_index))).map (fun d =>
    (List.finRange 5).filterMap (fun i =>
      match d.fingers i with
      | FingerState.free => none
      | FingerState.pressing m b => some (i, m, b)))

/-- Modelled from the spec: the engine's optional starting bellows state
(default neutral).  The pseudocode's `computeFingerings` hardcodes
`BELLOWS_NEUTRAL`; the phase-5 plan declares the implementation signature
`compute_fingerings(events, initial_bellows="neutral")`, whose file is absent
from the source tree, so the parameter is modelled here as a wrapper around
the embedded start node. -/
noncomputable def startNodeWith (hfun : NodeState → List MusicalEvent → ℝ)
    (events : List MusicalEvent) (initialBellows : Option Bellows) : NodeState :=
  { start_node hfun events with bellows_state := initialBellows.getD Bellows.neutral }

/-- Scenario A of the spec's §8: the single note MIDI 60, not tied. -/
def noteA : Note := { midi := 60, tied_from_prev := false }

/-- Scenario A's single event: one note, no bellows hint, not a downbeat. -/
def evA : MusicalEvent :=
  { notes := [noteA], bellows_direction := none, is_downbeat := false }

/-- Scenario A's single candidate button at row 2, column 5. -/
def buttonA : ButtonPosition := { row := 2, col := 5 }

/-- Scenario A's layout oracle: MIDI 60 sounds only at `buttonA`. -/
def layoutA : Int → List ButtonPosition := fun m => if m = 60 then [buttonA] else []

/-- Scenario pruning predicate: no inversion is anatomically impossible. -/
def ipA : NodeState → Bool := fun _ => false

/-- Scenario cost tunables: zero crossing severity, strength bias disabled,
pivot factor 1. -/
noncomputable def cfgA : CostConfig :=
  { severity := fun _ => 0, enableFingerStrengthBias := false,
    factorPivotReduction := 1 }

/-- Scenario heuristic: the zero lower bound (trivially admissible). -/
noncomputable def hfunA : NodeState → List MusicalEvent → ℝ := fun _ _ => 0

/-- Scenario A's start node. -/
noncomputable def startA : NodeState := start_node hfunA [evA]

/-- The Scenario A candidate that presses `buttonA` with the thumb. -/
noncomputable def succA : NodeState := buildSuccessor startA [] [(0, noteA, buttonA)]

/-- Witness hand for the tie scenarios: the thumb holds MIDI 60 on
`buttonA`, all other fingers free. -/
noncomputable def holdingState : NodeState :=
  { startA with
    fingers := Function.update startA.fingers 0 (FingerState.pressing 60 buttonA) }

/-- Witness event for tie preservation: MIDI 60 tied over from the previous
event, nothing else sounding. -/
def evTied : MusicalEvent :=
  { notes := [{ midi := 60, tied_from_prev := true }],
    bellows_direction := none, is_downbeat := false }

/-- Witness event for the inconsistent-tie scenario (Scenario D): MIDI 62
claimed tied although nothing holds it. -/
def evBadTie : MusicalEvent :=
  { notes := [{ midi := 62, tied_from_prev := true }],
    bellows_direction := none, is_downbeat := false }

/-- The sole successor of `holdingState` under `evTied`: the thumb stays
locked, no new note is assigned. -/
noncomputable def succTied : NodeState := buildSuccessor holdingState [0] []

/-- The cost function as the spec's §4.2 words it, for comparison with the
translated `calculateEdgeCost`: additive terms first, then the bellows-shift
discount on the additive distance cost when the event's bellows direction
differs from the previous node's state, then the pivot-finger multiplicative
reduction on the additive cost only, plus the unscaled penalty terms, clamped
to be non-negative. -/
noncomputable def edgeCostSpec (cfg : CostConfig) (prev next : NodeState)
    (event : MusicalEvent) : ℝ :=
  let additive := centroidDistance prev.centroid_row prev.centroid_col
      next.centroid_row next.centroid_col * WEIGHT_DISTANCE +
    |prev.centroid_row - next.centroid_row| * WEIGHT_ROW_JUMP
  let additive1 :=
    if bellowsChanged event prev then additive * (1 - BONUS_BELLOWS_SHIFT)
    else additive
  let additive2 :=
    if hasPivotFinger prev next then additive1 * cfg.factorPivotReduction
    else additive1
  let penalties :=
    (if isGeometricInversion next.fingers then
      cfg.severity next.fingers * PENALTY_CROSSING else 0) +
    (if cfg.enableFingerStrengthBias && event.is_downbeat then
      weaknessPenalty next.fingers else 0)
  max (additive2 + penalties) 0

/-- Modelled from the spec: "best-cost completed-or-partial path found so
far" — a candidate replaces the incumbent when it has fingered more events,
or as many events at strictly lower accumulated cost. -/
noncomputable def updateBest (best cand : NodeState) : NodeState :=
  if best.time_index < cand.time_index then cand
  else if cand.time_index < best.time_index then best
  else if cand.g_score < best.g_score then cand
  else best

/-- The sequence of nodes the loop pops and expands within the given fuel
(the nodes `searchStep` reports through its `next` outcome). -/
noncomputable def poppedSeq (layout : Int → List ButtonPosition)
    (hfun : NodeState → List MusicalEvent → ℝ) (ip : NodeState → Bool)
    (cfg : CostConfig) (events : List MusicalEvent) :
    Nat → List NodeState → ClosedSet → List NodeState
  | 0, _, _ => []
  | fuel + 1, opens, closed =>
      match searchStep layout hfun ip cfg events opens closed with
      | StepOut.next cur o c => cur :: poppedSeq layout hfun ip cfg events fuel o c
      | _ => []

/-- Fold of `updateBest` over a list of candidates. -/
noncomputable def bestOf (best : NodeState) (l : List NodeState) : NodeState :=
  l.foldl updateBest best

/-- Result of the budgeted engine: a chain with its optimality mark (`false`
when the search was cut off by the budget), or `NoFeasiblePath`. -/
inductive BudgetedResult where
  | success (chain : List NodeData) (optimal : Bool)
  | noFeasiblePath

/-- Modelled from the spec: the cooperative cancellation/timeout of §5 and
§7, absent from the pseudocode (the phase-5 plan only declares "Add timeout
with best-effort solution").  The loop runs the same `searchStep` under a
node-expansion budget, tracks the best-cost completed-or-partial node seen so
far, and on budget exhaustion returns that node's path marked as non-optimal;
the modelled index error surfaces as `NoFeasiblePath`. -/
noncomputable def budgetedLoop (layout : Int → List ButtonPosition)
    (hfun : NodeState → List MusicalEvent → ℝ) (ip : NodeState → Bool)
    (cfg : CostConfig) (events : List MusicalEvent) :
    Nat → List NodeState → ClosedSet → NodeState → BudgetedResult
  | 0, _, _, best => BudgetedResult.success (reconstructPath best) false
  | fuel + 1, opens, closed, best =>
      match searchStep layout hfun ip cfg events opens closed with
      | StepOut.solution ch => BudgetedResult.success ch true
      | StepOut.failure => BudgetedResult.noFeasiblePath
      | StepOut.indexError => BudgetedResult.noFeasiblePath
      | StepOut.next cur o c =>
          budgetedLoop layout hfun ip cfg events fuel o c (updateBest best cur)

/-- Modelled from the spec: the engine entry point under a node-expansion
budget, starting from the neutral start node. -/
noncomputable def computeFingeringsBudgeted (layout : Int → List ButtonPosition)
    (hfun : NodeState → List MusicalEvent → ℝ) (ip : NodeState → Bool)
    (cfg : CostConfig) (events : List MusicalEvent) (budget : Nat) : BudgetedResult :=
  budgetedLoop layout hfun ip cfg events budget [start_node hfun events] []
    (start_node hfun events)

/-! ### Basic lemmas about the cost model and the state generator -/

theorem calculateEdgeCost_nonneg (cfg : CostConfig) (prev next : NodeState)
    (event : MusicalEvent) : 0 ≤ calculateEdgeCost cfg prev next event := by
  unfold calculateEdgeCost
  exact le_max_right _ _

theorem buildSuccessor_g_score (c : NodeState) (locked : List (Fin 5))
    (a : List (Fin 5 × Note × ButtonPosition)) :
    (buildSuccessor c locked a).g_score = c.g_score := rfl

theorem buildSuccessor_bellows (c : NodeState) (locked : List (Fin 5))
    (a : List (Fin 5 × Note × ButtonPosition)) :
    (buildSuccessor c locked a).bellows_state = c.bellows_state := rfl

theorem buildSuccessor_time (c : NodeState) (locked : List (Fin 5))
    (a : List (Fin 5 × Note × ButtonPosition)) :
    (buildSuccessor c locked a).time_index = c.time_index := rfl

theorem generateSuccessors_mem {layout : Int → List ButtonPosition}
    {ip : NodeState → Bool} {c : NodeState} {e : MusicalEvent} {n : NodeState}
    (h : n ∈ generateSuccessors layout ip c e) :
    ∃ locked a, lockedFingers c e.notes = some locked ∧
      a ∈ assignmentsFor layout
        ((List.finRange 5).filter (fun i => decide (i ∉ locked)))
        (e.notes.filter (fun nt => !nt.tied_from_prev)) ∧
      n = buildSuccessor c locked a ∧
      ¬ MAX_HAND_SPAN_MM < calculateSpanMM n.fingers ∧ ip n = false := by
  unfold generateSuccessors at h
  rcases hl : lockedFingers c e.notes with _ | locked
  · rw [hl] at h; simp at h
  · rw [hl] at h
    simp only [List.mem_filterMap] at h
    obtain ⟨a, ha, hsome⟩ := h
    refine ⟨locked, a, rfl, ha, ?_⟩
    by_cases h1 : MAX_HAND_SPAN_MM < calculateSpanMM (buildSuccessor c locked a).fingers
    · rw [if_pos h1] at hsome; exact absurd hsome (by simp)
    · rw [if_neg h1] at hsome
      by_cases h2 : ip (buildSuccessor c locked a)
      · rw [if_pos h2] at hsome; exact absurd hsome (by simp)
      · rw [if_neg h2] at hsome
        simp only [Option.some.injEq] at hsome
        subst hsome
        exact ⟨rfl, h1, by simpa using h2⟩

theorem generateSuccessors_g_score {layout : Int → List ButtonPosition}
    {ip : NodeState → Bool} {c : NodeState} {e : MusicalEvent} {n : NodeState}
    (h : n ∈ generateSuccessors layout ip c e) : n.g_score = c.g_score := by
  obtain ⟨locked, a, -, -, hn, -, -⟩ := generateSuccessors_mem h
  rw [hn, buildSuccessor_g_score]

theorem generateSuccessors_bellows {layout : Int → List ButtonPosition}
    {ip : NodeState → Bool} {c : NodeState} {e : MusicalEvent} {n : NodeState}
    (h : n ∈ generateSuccessors layout ip c e) :
    n.bellows_state = c.bellows_state := by
  obtain ⟨locked, a, -, -, hn, -, -⟩ := generateSuccessors_mem h
  rw [hn, buildSuccessor_bellows]

theorem generateSuccessors_filters {layout : Int → List ButtonPosition}
    {ip : NodeState → Bool} {c : NodeState} {e : MusicalEvent} {n : NodeState}
    (h : n ∈ generateSuccessors layout ip c e) :
    calculateSpanMM n.fingers ≤ MAX_HAND_SPAN_MM ∧ ip n = false := by
  obtain ⟨locked, a, -, -, -, hspan, hip⟩ := generateSuccessors_mem h
  exact ⟨le_of_not_lt hspan, hip⟩

theorem pushImproved_eq_nil (hfun : NodeState → List MusicalEvent → ℝ)
    (cfg : CostConfig) (events : List MusicalEvent) (current : NodeState)
    (target : MusicalEvent) (candidates : List NodeState)
    (hg : ∀ nb ∈ candidates, nb.g_score = current.g_score) :
    pushImproved hfun cfg events current target candidates = [] := by
  unfold pushImproved
  rw [List.filterMap_eq_nil_iff]
  intro nb hnb
  rw [if_neg]
  rw [hg nb hnb]
  exact not_lt.mpr (le_add_of_nonneg_right (calculateEdgeCost_nonneg cfg current nb target))

/-! ### Lemmas about the priority queue and one search iteration -/

theorem popMin_fst_mem (b : NodeState) (l : List NodeState) :
    (popMin b l).1 ∈ b :: l := by
  induction l generalizing b with
  | nil => simp [popMin]
  | cons x xs ih =>
      rw [popMin]
      split
      · have := ih x
        simp only [List.mem_cons] at this ⊢
        tauto
      · have := ih b
        simp only [List.mem_cons] at this ⊢
        tauto

theorem popMin_snd_mem (b : NodeState) (l : List NodeState) :
    ∀ y ∈ (popMin b l).2, y ∈ b :: l := by
  induction l generalizing b with
  | nil => simp [popMin]
  | cons x xs ih =>
      rw [popMin]
      split
      · intro y hy
        simp only [List.mem_cons] at hy ⊢
        rcases hy with hy | hy
        · tauto
        · have := ih x y hy
          simp only [List.mem_cons] at this
          tauto
      · intro y hy
        simp only [List.mem_cons] at hy ⊢
        rcases hy with hy | hy
        · tauto
        · have := ih b y hy
          simp only [List.mem_cons] at this
          tauto

theorem expandNode_next {layout : Int → List ButtonPosition}
    {hfun : NodeState → List MusicalEvent → ℝ} {ip : NodeState → Bool}
    {cfg : CostConfig} {events : List MusicalEvent} {current : NodeState}
    {rest : List NodeState} {closed : ClosedSet} {cur : NodeState}
    {o' : List NodeState} {c' : ClosedSet}
    (h : expandNode layout hfun ip cfg events current rest closed =
      StepOut.next cur o' c') :
    cur = current ∧ o' = rest ∧
      c' = (calculateHash current, current.toNodeData) :: closed := by
  unfold expandNode at h
  cases htg : events[(current.time_index + 1).toNat]? with
  | none =>
      simp only [htg] at h
      exact StepOut.noConfusion h
  | some target =>
      simp only [htg] at h
      have hpush : pushImproved hfun cfg events current target
          (generateSuccessors layout ip current target) = [] :=
        pushImproved_eq_nil _ _ _ _ _ _
          (fun nb hnb => generateSuccessors_g_score hnb)
      rw [hpush] at h
      cases h
      exact ⟨rfl, by simp, rfl⟩

theorem searchStep_cons (layout : Int → List ButtonPosition)
    (hfun : NodeState → List MusicalEvent → ℝ) (ip : NodeState → Bool)
    (cfg : CostConfig) (events : List MusicalEvent) (x : NodeState)
    (xs : List NodeState) (closed : ClosedSet) :
    searchStep layout hfun ip cfg events (x :: xs) closed =
      (if (popMin x xs).1.time_index = (events.length : Int) - 1 then
        StepOut.solution (reconstructPath (popMin x xs).1)
      else
        match lookupClosed closed (calculateHash (popMin x xs).1) with
        | some stored =>
            if stored.g_score ≤ (popMin x xs).1.g_score then
              StepOut.next (popMin x xs).1 (popMin x xs).2 closed
            else expandNode layout hfun ip cfg events (popMin x xs).1
              (popMin x xs).2 closed
        | none => expandNode layout hfun ip cfg events (popMin x xs).1
            (popMin x xs).2 closed) := rfl

theorem searchStep_next_sub {layout : Int → List ButtonPosition}
    {hfun : NodeState → List MusicalEvent → ℝ} {ip : NodeState → Bool}
    {cfg : CostConfig} {events : List MusicalEvent} {opens : List NodeState}
    {closed : ClosedSet} {cur : NodeState} {o' : List NodeState} {c' : ClosedSet}
    (h : searchStep layout hfun ip cfg events opens closed =
      StepOut.next cur o' c') :
    cur ∈ opens ∧ ∀ y ∈ o', y ∈ opens := by
  cases opens with
  | nil => simp [searchStep] at h
  | cons x xs =>
      rw [searchStep_cons] at h
      split at h
      · cases h
      · split at h
        · split at h
          · cases h
            exact ⟨popMin_fst_mem x xs, popMin_snd_mem x xs⟩
          · obtain ⟨hc, ho, -⟩ := expandNode_next h
            subst hc; subst ho
            exact ⟨popMin_fst_mem x xs, popMin_snd_mem x xs⟩
        · obtain ⟨hc, ho, -⟩ := expandNode_next h
          subst hc; subst ho
          exact ⟨popMin_fst_mem x xs, popMin_snd_mem x xs⟩

theorem expandNode_not_solution {layout : Int → List ButtonPosition}
    {hfun : NodeState → List MusicalEvent → ℝ} {ip : NodeState → Bool}
    {cfg : CostConfig} {events : List MusicalEvent} {current : NodeState}
    {rest : List NodeState} {closed : ClosedSet} {ch : List NodeData} :
    expandNode layout hfun ip cfg events current rest closed ≠
      StepOut.solution ch := by
  unfold expandNode
  cases htg : events[(current.time_index + 1).toNat]? <;> simp [htg]

theorem searchStep_solution_mem {layout : Int → List ButtonPosition}
    {hfun : NodeState → List MusicalEvent → ℝ} {ip : NodeState → Bool}
    {cfg : CostConfig} {events : List MusicalEvent} {opens : List NodeState}
    {closed : ClosedSet} {ch : List NodeData}
    (h : searchStep layout hfun ip cfg events opens closed =
      StepOut.solution ch) :
    ∃ cu ∈ opens, ch = reconstructPath cu ∧
      cu.time_index = (events.length : Int) - 1 := by
  cases opens with
  | nil => simp [searchStep] at h
  | cons x xs =>
      rw [searchStep_cons] at h
      split at h
      · cases h
        exact ⟨(popMin x xs).1, popMin_fst_mem x xs, rfl, by assumption⟩
      · split at h
        · split at h
          · cases h
          · exact absurd h expandNode_not_solution
        · exact absurd h expandNode_not_solution

/-! ### Lemmas about the pathfinding loop -/

theorem searchLoop_zero (layout : Int → List ButtonPosition)
    (hfun : NodeState → List MusicalEvent → ℝ) (ip : NodeState → Bool)
    (cfg : CostConfig) (events : List MusicalEvent) (opens : List NodeState)
    (closed : ClosedSet) :
    searchLoop layout hfun ip cfg events 0 opens closed = SearchResult.outOfFuel := rfl

theorem searchLoop_succ (layout : Int → List ButtonPosition)
    (hfun : NodeState → List MusicalEvent → ℝ) (ip : NodeState → Bool)
    (cfg : CostConfig) (events : List MusicalEvent) (fuel : Nat)
    (opens : List NodeState) (closed : ClosedSet) :
    searchLoop layout hfun ip cfg events (fuel + 1) opens closed =
      (match searchStep layout hfun ip cfg events opens closed with
      | StepOut.solution ch => SearchResult.solution ch
      | StepOut.failure => SearchResult.failure
      | StepOut.indexError => SearchResult.indexError
      | StepOut.next _ o c => searchLoop layout hfun ip cfg events fuel o c) := rfl

theorem poppedSeq_zero (layout : Int → List ButtonPosition)
    (hfun : NodeState → List MusicalEvent → ℝ) (ip : NodeState → Bool)
    (cfg : CostConfig) (events : List MusicalEvent) (opens : List NodeState)
    (closed : ClosedSet) :
    poppedSeq layout hfun ip cfg events 0 opens closed = [] := rfl

theorem poppedSeq_succ (layout : Int → List ButtonPosition)
    (hfun : NodeState → List MusicalEvent → ℝ) (ip : NodeState → Bool)
    (cfg : CostConfig) (events : List MusicalEvent) (fuel : Nat)
    (opens : List NodeState) (closed : ClosedSet) :
    poppedSeq layout hfun ip cfg events (fuel + 1) opens closed =
      (match searchStep layout hfun ip cfg events opens closed with
      | StepOut.next cur o c => cur :: poppedSeq layout hfun ip cfg events fuel o c
      | _ => []) := rfl

theorem budgetedLoop_zero (layout : Int → List ButtonPosition)
    (hfun : NodeState → List MusicalEvent → ℝ) (ip : NodeState → Bool)
    (cfg : CostConfig) (events : List MusicalEvent) (opens : List NodeState)
    (closed : ClosedSet) (best : NodeState) :
    budgetedLoop layout hfun ip cfg events 0 opens closed best =
      BudgetedResult.success (reconstructPath best) false := rfl

theorem budgetedLoop_succ (layout : Int → List ButtonPosition)
    (hfun : NodeState → List MusicalEvent → ℝ) (ip : NodeState → Bool)
    (cfg : CostConfig) (events : List MusicalEvent) (fuel : Nat)
    (opens : List NodeState) (closed : ClosedSet) (best : NodeState) :
    budgetedLoop layout hfun ip cfg events (fuel + 1) opens closed best =
      (match searchStep layout hfun ip cfg events opens closed with
      | StepOut.solution ch => BudgetedResult.success ch true
      | StepOut.failure => BudgetedResult.noFeasiblePath
      | StepOut.indexError => BudgetedResult.noFeasiblePath
      | StepOut.next cur o c =>
          budgetedLoop layout hfun ip cfg events fuel o c (updateBest best cur)) := rfl

/-- Any property of search nodes that holds on the whole open set holds on
every node the loop subsequently pops (nothing improved is ever pushed, so
the open set only shrinks). -/
theorem poppedSeq_inv (layout : Int → List ButtonPosition)
    (hfun : NodeState → List MusicalEvent → ℝ) (ip : NodeState → Bool)
    (cfg : CostConfig) (events : List MusicalEvent) (P : NodeState → Prop) :
    ∀ fuel opens closed, (∀ m ∈ opens, P m) →
      ∀ n ∈ poppedSeq layout hfun ip cfg events fuel opens closed, P n := by
  intro fuel
  induction fuel with
  | zero =>
      intro opens closed _ n hn
      rw [poppedSeq_zero] at hn
      exact absurd hn (List.not_mem_nil n)
  | succ fuel ih =>
      intro opens closed hP n hn
      rw [poppedSeq_succ] at hn
      cases hstep : searchStep layout hfun ip cfg events opens closed with
      | next cur o c =>
          rw [hstep] at hn
          obtain ⟨hcur, hsub⟩ := searchStep_next_sub hstep
          rcases List.mem_cons.mp hn with hn | hn
          · exact hn ▸ hP cur hcur
          · exact ih o c (fun m hm => hP m (hsub m hm)) n hn
      | solution ch => rw [hstep] at hn; exact absurd hn (List.not_mem_nil n)
      | failure => rw [hstep] at hn; exact absurd hn (List.not_mem_nil n)
      | indexError => rw [hstep] at hn; exact absurd hn (List.not_mem_nil n)

/-- Any accepted path is the reconstructed path of a goal node drawn from the
initial open set (again because nothing is ever pushed). -/
theorem searchLoop_solution_inv (layout : Int → List ButtonPosition)
    (hfun : NodeState → List MusicalEvent → ℝ) (ip : NodeState → Bool)
    (cfg : CostConfig) (events : List MusicalEvent) (P : NodeState → Prop) :
    ∀ fuel opens closed, (∀ m ∈ opens, P m) →
      ∀ ch, searchLoop layout hfun ip cfg events fuel opens closed =
        SearchResult.solution ch →
      ∃ cu, P cu ∧ ch = reconstructPath cu ∧
        cu.time_index = (events.length : Int) - 1 := by
  intro fuel
  induction fuel with
  | zero =>
      intro opens closed _ ch hch
      rw [searchLoop_zero] at hch
      exact SearchResult.noConfusion hch
  | succ fuel ih =>
      intro opens closed hP ch hch
      rw [searchLoop_succ] at hch
      cases hstep : searchStep layout hfun ip cfg events opens closed with
      | solution ch' =>
          rw [hstep] at hch
          cases hch
          obtain ⟨cu, hcu, hrec, htime⟩ := searchStep_solution_mem hstep
          exact ⟨cu, hP cu hcu, hrec, htime⟩
      | failure => rw [hstep] at hch; exact SearchResult.noConfusion hch
      | indexError => rw [hstep] at hch; exact SearchResult.noConfusion hch
      | next cur o c =>
          rw [hstep] at hch
          obtain ⟨-, hsub⟩ := searchStep_next_sub hstep
          exact ih o c (fun m hm => hP m (hsub m hm)) ch hch

/-- The budgeted engine refines the unbudgeted loop: same solution (marked
optimal) when the loop succeeds within the budget, `NoFeasiblePath` when it
fails, and, exactly when the budget is exhausted mid-search, the path of the
best-so-far node (the `updateBest` fold over all popped nodes) marked as
non-optimal. -/
theorem budgetedLoop_refines (layout : Int → List ButtonPosition)
    (hfun : NodeState → List MusicalEvent → ℝ) (ip : NodeState → Bool)
    (cfg : CostConfig) (events : List MusicalEvent) :
    ∀ fuel opens closed best,
      (∃ ch, searchLoop layout hfun ip cfg events fuel opens closed =
          SearchResult.solution ch ∧
        budgetedLoop layout hfun ip cfg events fuel opens closed best =
          BudgetedResult.success ch true) ∨
      (searchLoop layout hfun ip cfg events fuel opens closed =
          SearchResult.failure ∧
        budgetedLoop layout hfun ip cfg events fuel opens closed best =
          BudgetedResult.noFeasiblePath) ∨
      (searchLoop layout hfun ip cfg events fuel opens closed =
          SearchResult.indexError ∧
        budgetedLoop layout hfun ip cfg events fuel opens closed best =
          BudgetedResult.noFeasiblePath) ∨
      (searchLoop layout hfun ip cfg events fuel opens closed =
          SearchResult.outOfFuel ∧
        budgetedLoop layout hfun ip cfg events fuel opens closed best =
          BudgetedResult.success
            (reconstructPath (bestOf best
              (poppedSeq layout hfun ip cfg events fuel opens closed))) false) := by
  intro fuel
  induction fuel with
  | zero =>
      intro opens closed best
      refine Or.inr (Or.inr (Or.inr ⟨searchLoop_zero _ _ _ _ _ _ _, ?_⟩))
      rw [budgetedLoop_zero, poppedSeq_zero]
      rfl
  | succ fuel ih =>
      intro opens closed best
      cases hstep : searchStep layout hfun ip cfg events opens closed with
      | solution ch =>
          refine Or.inl ⟨ch, ?_, ?_⟩
          · rw [searchLoop_succ, hstep]
          · rw [budgetedLoop_succ, hstep]
      | failure =>
          refine Or.inr (Or.inl ⟨?_, ?_⟩)
          · rw [searchLoop_succ, hstep]
          · rw [budgetedLoop_succ, hstep]
      | indexError =>
          refine Or.inr (Or.inr (Or.inl ⟨?_, ?_⟩))
          · rw [searchLoop_succ, hstep]
          · rw [budgetedLoop_succ, hstep]
      | next cur o c =>
          have hloop : searchLoop layout hfun ip cfg events (fuel + 1) opens closed =
              searchLoop layout hfun ip cfg events fuel o c := by
            rw [searchLoop_succ, hstep]
          have hbud : budgetedLoop layout hfun ip cfg events (fuel + 1) opens closed best =
              budgetedLoop layout hfun ip cfg events fuel o c (updateBest best cur) := by
            rw [budgetedLoop_succ, hstep]
          have hpop : poppedSeq layout hfun ip cfg events (fuel + 1) opens closed =
              cur :: poppedSeq layout hfun ip cfg events fuel o c := by
            rw [poppedSeq_succ, hstep]
          have hbest : bestOf best (poppedSeq layout hfun ip cfg events (fuel + 1) opens closed) =
              bestOf (updateBest best cur) (poppedSeq layout hfun ip cfg events fuel o c) := by
            rw [hpop]; rfl
          rw [hloop, hbud, hbest]
          exact ih o c (updateBest best cur)

/-! ### Evaluation of the loop from the start node -/

theorem start_node_time (hfun : NodeState → List MusicalEvent → ℝ)
    (events : List MusicalEvent) : (start_node hfun events).time_index = -1 := rfl

theorem start_node_fingers (hfun : NodeState → List MusicalEvent → ℝ)
    (events : List MusicalEvent) (i : Fin 5) :
    (start_node hfun events).fingers i = FingerState.free := rfl

theorem start_node_parent (hfun : NodeState → List MusicalEvent → ℝ)
    (events : List MusicalEvent) : (start_node hfun events).parent = [] := rfl

theorem start_node_bellows (hfun : NodeState → List MusicalEvent → ℝ)
    (events : List MusicalEvent) :
    (start_node hfun events).bellows_state = Bellows.neutral := rfl

theorem searchStep_start_nil (layout : Int → List ButtonPosition)
    (hfun : NodeState → List MusicalEvent → ℝ) (ip : NodeState → Bool)
    (cfg : CostConfig) :
    searchStep layout hfun ip cfg [] [start_node hfun []] [] =
      StepOut.solution [(start_node hfun []).toNodeData] := by
  rw [searchStep_cons]
  rw [if_pos]
  · rfl
  · show ((-1 : Int)) = (([] : List MusicalEvent).length : Int) - 1
    decide

theorem searchStep_start_cons (layout : Int → List ButtonPosition)
    (hfun : NodeState → List MusicalEvent → ℝ) (ip : NodeState → Bool)
    (cfg : CostConfig) (ev : MusicalEvent) (es : List MusicalEvent) :
    searchStep layout hfun ip cfg (ev :: es) [start_node hfun (ev :: es)] [] =
      StepOut.next (start_node hfun (ev :: es)) []
        [(calculateHash (start_node hfun (ev :: es)),
          (start_node hfun (ev :: es)).toNodeData)] := by
  rw [searchStep_cons]
  rw [if_neg]
  · show expandNode layout hfun ip cfg (ev :: es) (start_node hfun (ev :: es)) [] [] =
      StepOut.next (start_node hfun (ev :: es)) []
        [(calculateHash (start_node hfun (ev :: es)),
          (start_node hfun (ev :: es)).toNodeData)]
    unfold expandNode
    have hidx : (ev :: es)[((start_node hfun (ev :: es)).time_index + 1).toNat]? =
        some ev := by
      rw [start_node_time]
      simp
    rw [hidx]
    have hpush : pushImproved hfun cfg (ev :: es) (start_node hfun (ev :: es)) ev
        (generateSuccessors layout ip (start_node hfun (ev :: es)) ev) = [] :=
      pushImproved_eq_nil _ _ _ _ _ _ (fun nb hnb => generateSuccessors_g_score hnb)
    simp [hpush]
  · show ¬ ((-1 : Int) = ((ev :: es).length : Int) - 1)
    simp only [List.length_cons]
    push_cast
    omega

theorem computeFingerings_nil (layout : Int → List ButtonPosition)
    (hfun : NodeState → List MusicalEvent → ℝ) (ip : NodeState → Bool)
    (cfg : CostConfig) (fuel : Nat) :
    computeFingerings layout hfun ip cfg [] (fuel + 1) =
      SearchResult.solution [(start_node hfun []).toNodeData] := by
  unfold computeFingerings
  rw [searchLoop_succ, searchStep_start_nil]

theorem computeFingerings_cons (layout : Int → List ButtonPosition)
    (hfun : NodeState → List MusicalEvent → ℝ) (ip : NodeState → Bool)
    (cfg : CostConfig) (ev : MusicalEvent) (es : List MusicalEvent) (fuel : Nat) :
    computeFingerings layout hfun ip cfg (ev :: es) (fuel + 2) =
      SearchResult.failure := by
  unfold computeFingerings
  rw [searchLoop_succ, searchStep_start_cons]
  show searchLoop layout hfun ip cfg (ev :: es) (fuel + 1) []
      [(calculateHash (start_node hfun (ev :: es)),
        (start_node hfun (ev :: es)).toNodeData)] = SearchResult.failure
  rw [searchLoop_succ]
  rfl

theorem computeFingerings_not_indexError (layout : Int → List ButtonPosition)
    (hfun : NodeState → List MusicalEvent → ℝ) (ip : NodeState → Bool)
    (cfg : CostConfig) (events : List MusicalEvent) (fuel : Nat) :
    computeFingerings layout hfun ip cfg events fuel ≠ SearchResult.indexError := by
  cases events with
  | nil =>
      cases fuel with
      | zero => intro h; exact SearchResult.noConfusion h
      | succ fuel => rw [computeFingerings_nil]; intro h; exact SearchResult.noConfusion h
  | cons ev es =>
      rcases fuel with _ | _ | fuel
      · intro h; exact SearchResult.noConfusion h
      · unfold computeFingerings
        rw [searchLoop_succ, searchStep_start_cons]
        show searchLoop layout hfun ip cfg (ev :: es) 0 []
            [(calculateHash (start_node hfun (ev :: es)),
              (start_node hfun (ev :: es)).toNodeData)] ≠ SearchResult.indexError
        rw [searchLoop_zero]
        intro h; exact SearchResult.noConfusion h
      · rw [computeFingerings_cons]
        intro h; exact SearchResult.noConfusion h

/-! ### Frame lemmas: locked fingers and tie handling -/

theorem applyLocked_eq (c : NodeState) : ∀ locked : List (Fin 5),
    applyLocked c locked = c.fingers := by
  have key : ∀ (locked : List (Fin 5)),
      locked.foldl (fun fs i => Function.update fs i (c.fingers i)) c.fingers =
        c.fingers := by
    intro locked
    induction locked with
    | nil => rfl
    | cons i rest ih => rw [List.foldl_cons, Function.update_eq_self]; exact ih
  intro locked
  exact key locked

theorem applyAssignment_frame :
    ∀ (a : List (Fin 5 × Note × ButtonPosition)) (fs : Fin 5 → FingerState)
      (i : Fin 5), (∀ p ∈ a, p.1 ≠ i) → applyAssignment fs a i = fs i := by
  intro a
  induction a with
  | nil => intro fs i _; rfl
  | cons p rest ih =>
      intro fs i hp
      obtain ⟨f, n, b⟩ := p
      rw [applyAssignment]
      rw [ih _ i (fun q hq => hp q (List.mem_cons_of_mem _ hq))]
      exact Function.update_noteq
        (Ne.symm (hp (f, n, b) (List.mem_cons_self _ _))) _ _

theorem assignmentsFor_mem_fst {layout : Int → List ButtonPosition} :
    ∀ {notes : List Note} {free : List (Fin 5)}
      {a : List (Fin 5 × Note × ButtonPosition)},
      a ∈ assignmentsFor layout free notes → ∀ p ∈ a, p.1 ∈ free := by
  intro notes
  induction notes with
  | nil =>
      intro free a ha p hp
      simp only [assignmentsFor, List.mem_singleton] at ha
      subst ha
      exact absurd hp (List.not_mem_nil p)
  | cons n rest ih =>
      intro free a ha p hp
      simp only [assignmentsFor, List.mem_flatMap, List.mem_map] at ha
      obtain ⟨f, hf, b, hb, tail, htail, rfl⟩ := ha
      rcases List.mem_cons.mp hp with rfl | hp'
      · exact hf
      · exact List.erase_subset _ _ (ih htail p hp')

theorem lockedFingers_holder_mem {c : NodeState} :
    ∀ {notes : List Note} {L : List (Fin 5)},
      lockedFingers c notes = some L →
      ∀ {note : Note}, note ∈ notes → note.tied_from_prev = true →
      ∀ {i : Fin 5}, findHolder c.fingers note.midi = some i → i ∈ L := by
  intro notes
  induction notes with
  | nil =>
      intro L _ note hnote
      exact absurd hnote (List.not_mem_nil note)
  | cons n rest ih =>
      intro L hL note hnote htied i hidx
      rw [lockedFingers] at hL
      rcases List.mem_cons.mp hnote with rfl | hnote'
      · rw [if_pos htied, hidx] at hL
        cases hrest : lockedFingers c rest with
        | none => rw [hrest] at hL; exact Option.noConfusion hL
        | some L' =>
            rw [hrest] at hL
            simp at hL
            subst hL
            exact List.mem_cons_self i L'
      · by_cases hn : n.tied_from_prev
        · rw [if_pos hn] at hL
          cases hfind : findHolder c.fingers n.midi with
          | none => rw [hfind] at hL; exact Option.noConfusion hL
          | some j =>
              rw [hfind] at hL
              cases hrest : lockedFingers c rest with
              | none => rw [hrest] at hL; exact Option.noConfusion hL
              | some L' =>
                  rw [hrest] at hL
                  simp at hL
                  subst hL
                  exact List.mem_cons_of_mem j (ih hrest hnote' htied hidx)
        · rw [if_neg hn] at hL
          exact ih hL hnote' htied hidx

theorem lockedFingers_none {c : NodeState} :
    ∀ {notes : List Note} {note : Note}, note ∈ notes →
      note.tied_from_prev = true → findHolder c.fingers note.midi = none →
      lockedFingers c notes = none := by
  intro notes
  induction notes with
  | nil =>
      intro note hnote
      exact absurd hnote (List.not_mem_nil note)
  | cons n rest ih =>
      intro note hnote htied hfind
      rw [lockedFingers]
      rcases List.mem_cons.mp hnote with rfl | hnote'
      · rw [if_pos htied, hfind]
      · by_cases hn : n.tied_from_prev
        · rw [if_pos hn]
          cases hf : findHolder c.fingers n.midi with
          | none => rfl
          | some j => rw [ih hnote' htied hfind]; rfl
        · rw [if_neg hn]
          exact ih hnote' htied hfind

theorem findHolder_pressing {fs : Fin 5 → FingerState} {m : Int} {i : Fin 5}
    (h : findHolder fs m = some i) : ∃ b, fs i = FingerState.pressing m b := by
  have hp := List.find?_some h
  cases hfi : fs i with
  | free => rw [hfi] at hp; simp [isHolding] at hp
  | pressing m' b =>
      rw [hfi] at hp
      have hm : m' = m := by simpa [isHolding] using hp
      subst hm
      exact ⟨b, rfl⟩

theorem findHolder_eq_none {fs : Fin 5 → FingerState} {m : Int}
    (h : ∀ i, isHolding (fs i) m = false) : findHolder fs m = none := by
  apply List.find?_eq_none.mpr
  intro i _
  rw [h i]
  exact Bool.false_ne_true

/-- Tie preservation at the generator level: the finger that holds a tied
note's pitch in the current node is carried over unchanged into every
successor. -/
theorem generateSuccessors_tie_frame {layout : Int → List ButtonPosition}
    {ip : NodeState → Bool} {c : NodeState} {e : MusicalEvent} {n : NodeState}
    (hn : n ∈ generateSuccessors layout ip c e)
    {note : Note} (hnote : note ∈ e.notes) (htied : note.tied_from_prev = true)
    {i : Fin 5} (hidx : findHolder c.fingers note.midi = some i) :
    n.fingers i = c.fingers i := by
  obtain ⟨locked, a, hlock, ha, hbuild, -, -⟩ := generateSuccessors_mem hn
  have hiL : i ∈ locked := lockedFingers_holder_mem hlock hnote htied hidx
  have hfree : ∀ p ∈ a, p.1 ≠ i := by
    intro p hp
    have hmem := assignmentsFor_mem_fst ha p hp
    simp only [List.mem_filter, List.mem_finRange, true_and,
      decide_eq_true_eq] at hmem
    intro hcontra
    exact hmem (hcontra ▸ hiL)
  rw [hbuild]
  show applyAssignment (applyLocked c locked) a i = c.fingers i
  rw [applyAssignment_frame a _ i hfree, applyLocked_eq]

/-- Scenario D at the generator level: a tied note whose pitch no current
finger holds invalidates the branch, yielding no successors. -/
theorem generateSuccessors_inconsistent_tie {layout : Int → List ButtonPosition}
    {ip : NodeState → Bool} {c : NodeState} {e : MusicalEvent}
    {note : Note} (hnote : note ∈ e.notes) (htied : note.tied_from_prev = true)
    (hfree : ∀ j, isHolding (c.fingers j) note.midi = false) :
    generateSuccessors layout ip c e = [] := by
  have hlock : lockedFingers c e.notes = none :=
    lockedFingers_none hnote htied (findHolder_eq_none hfree)
  unfold generateSuccessors
  rw [hlock]

/-! ### Concrete evaluation of Scenario A -/

theorem startA_row : startA.centroid_row = 3 := rfl

theorem startA_col : startA.centroid_col = 0 := rfl

theorem activeButtons_succA : activeButtons succA.fingers = [buttonA] := rfl

theorem spanA : calculateSpanMM succA.fingers = 0 := rfl

theorem succA_mem : succA ∈ generateSuccessors layoutA ipA startA evA := by
  have h1 : lockedFingers startA evA.notes = some [] := rfl
  simp only [generateSuccessors, h1]
  refine List.mem_filterMap.mpr ⟨[(0, noteA, buttonA)], ?_, ?_⟩
  · decide
  · show (if MAX_HAND_SPAN_MM < calculateSpanMM succA.fingers then none
      else if ipA succA then none else some succA) = some succA
    have h2 : ¬ (MAX_HAND_SPAN_MM < calculateSpanMM succA.fingers) := by
      rw [spanA]
      norm_num [MAX_HAND_SPAN_MM]
    rw [if_neg h2]
    rfl

theorem succA_row : succA.centroid_row = 2 := by
  show centroidRow succA.fingers = 2
  unfold centroidRow
  rw [activeButtons_succA]
  simp [buttonA]

theorem succA_col : succA.centroid_col = 5 := by
  show centroidCol succA.fingers = 5
  unfold centroidCol
  rw [activeButtons_succA]
  simp [buttonA]

theorem edgeCostA : calculateEdgeCost cfgA startA succA evA =
    Real.sqrt (15 ^ 2 + 90 ^ 2) * WEIGHT_DISTANCE + 1 * WEIGHT_ROW_JUMP := by
  have hbell : bellowsChanged evA startA = false := rfl
  have hpiv : hasPivotFinger startA succA = false := rfl
  have hinv : isGeometricInversion succA.fingers = false := rfl
  have hbias : cfgA.enableFingerStrengthBias = false := rfl
  unfold calculateEdgeCost
  rw [hbell, hpiv, hinv, hbias]
  rw [startA_row, startA_col, succA_row, succA_col]
  unfold centroidDistance
  have harg : (((3 : ℝ) - 2) * ROW_SPACING_MM) ^ 2 +
      (((0 : ℝ) - 5) * COL_SPACING_MM) ^ 2 = 15 ^ 2 + 90 ^ 2 := by
    norm_num [ROW_SPACING_MM, COL_SPACING_MM]
  rw [harg]
  have habs : |(3 : ℝ) - 2| = 1 := by norm_num
  rw [habs]
  simp only [Bool.false_and, Bool.false_eq_true, if_false, mul_one, add_zero]
  rw [max_eq_left]
  have hs : (0 : ℝ) ≤ Real.sqrt 8325 := Real.sqrt_nonneg _
  norm_num [WEIGHT_DISTANCE, WEIGHT_ROW_JUMP]
  linarith

theorem findHolder_holding : findHolder holdingState.fingers 60 = some 0 := rfl

theorem succTied_mem : succTied ∈ generateSuccessors layoutA ipA holdingState evTied := by
  have h1 : lockedFingers holdingState evTied.notes = some [0] := rfl
  simp only [generateSuccessors, h1]
  refine List.mem_filterMap.mpr ⟨[], ?_, ?_⟩
  · decide
  · show (if MAX_HAND_SPAN_MM < calculateSpanMM succTied.fingers then none
      else if ipA succTied then none else some succTied) = some succTied
    have h2 : ¬ (MAX_HAND_SPAN_MM < calculateSpanMM succTied.fingers) := by
      have hsp : calculateSpanMM succTied.fingers = 0 := rfl
      rw [hsp]
      norm_num [MAX_HAND_SPAN_MM]
    rw [if_neg h2]
    rfl

theorem calculateEdgeCost_eq_spec (cfg : CostConfig) (prev next : NodeState)
    (event : MusicalEvent) :
    calculateEdgeCost cfg prev next event = edgeCostSpec cfg prev next event := by
  unfold calculateEdgeCost edgeCostSpec
  by_cases hb : bellowsChanged event prev <;>
    by_cases hp : hasPivotFinger prev next <;>
      simp [hb, hp, mul_one]

theorem start_node_span (hfun : NodeState → List MusicalEvent → ℝ)
    (events : List MusicalEvent) :
    calculateSpanMM (start_node hfun events).fingers = 0 := rfl

/-! ### Claim theorems -/

/-- C1 (code bug): the claim says the loop pushes every successor whose
tentative cost improves on its previously known `g`, and in particular that a
feasible input enqueues at least one successor of the start node.  On the
Scenario A input the start node has a nonempty successor list, yet the push
test `tentative_g < neighbor.g_score` compares against the `g_score` cloned
from the parent while the edge cost is clamped non-negative, so nothing is
ever enqueued and the engine returns `FAILURE`. -/
theorem C1_no_successor_is_ever_enqueued :
    generateSuccessors layoutA ipA startA evA ≠ [] ∧
    pushImproved hfunA cfgA [evA] startA evA
      (generateSuccessors layoutA ipA startA evA) = [] ∧
    computeFingerings layoutA hfunA ipA cfgA [evA] 10 = SearchResult.failure := by
  refine ⟨List.ne_nil_of_mem succA_mem, ?_, ?_⟩
  · exact pushImproved_eq_nil _ _ _ _ _ _ (fun nb hnb => generateSuccessors_g_score hnb)
  · exact computeFingerings_cons layoutA hfunA ipA cfgA evA [] 8

/-- C2 (confirmed): with at least two units of fuel the engine either returns
a solution whose per-event assignment list is exactly as long as the input
event sequence, or reports `FAILURE` (`NoFeasiblePath`); the result is
independent of any further fuel, so the loop neither crashes (no index error)
nor runs forever. -/
theorem C2_solution_length_or_no_feasible_path
    (layout : Int → List ButtonPosition) (hfun : NodeState → List MusicalEvent → ℝ)
    (ip : NodeState → Bool) (cfg : CostConfig) (events : List MusicalEvent)
    (fuel : Nat) :
    ((∃ ch, computeFingerings layout hfun ip cfg events (fuel + 2) =
        SearchResult.solution ch ∧ (toSolution ch).length = events.length) ∨
      computeFingerings layout hfun ip cfg events (fuel + 2) =
        SearchResult.failure) ∧
    computeFingerings layout hfun ip cfg events (fuel + 2) =
      computeFingerings layout hfun ip cfg events 2 := by
  cases events with
  | nil =>
      constructor
      · refine Or.inl ⟨[(start_node hfun []).toNodeData], ?_, rfl⟩
        exact computeFingerings_nil layout hfun ip cfg (fuel + 1)
      · rw [computeFingerings_nil layout hfun ip cfg (fuel + 1),
          computeFingerings_nil layout hfun ip cfg 1]
  | cons ev es =>
      constructor
      · exact Or.inr (computeFingerings_cons layout hfun ip cfg ev es fuel)
      · rw [computeFingerings_cons layout hfun ip cfg ev es fuel,
          computeFingerings_cons layout hfun ip cfg ev es 0]

/-- C3 (code bug): on the concrete Scenario A input the transition cost
computed by `calculateEdgeCost` is exactly
`sqrt(15^2 + 90^2) * WEIGHT_DISTANCE + 1 * WEIGHT_ROW_JUMP ≈ 93.24`, and the
candidate assignment is generated — but the engine never chooses any
assignment: it returns `FAILURE` on this input because no successor is ever
enqueued. -/
theorem C3_scenario_a_cost :
    calculateEdgeCost cfgA startA succA evA =
      Real.sqrt (15 ^ 2 + 90 ^ 2) * WEIGHT_DISTANCE + 1 * WEIGHT_ROW_JUMP ∧
    (93.23 < calculateEdgeCost cfgA startA succA evA ∧
      calculateEdgeCost cfgA startA succA evA < 93.25) ∧
    succA ∈ generateSuccessors layoutA ipA startA evA ∧
    computeFingerings layoutA hfunA ipA cfgA [evA] 10 = SearchResult.failure := by
  refine ⟨edgeCostA, ⟨?_, ?_⟩, succA_mem,
    computeFingerings_cons layoutA hfunA ipA cfgA evA [] 8⟩
  · rw [edgeCostA]
    have h1 : (91.23 : ℝ) < Real.sqrt (15 ^ 2 + 90 ^ 2) := by
      refine (Real.lt_sqrt (by norm_num)).mpr ?_
      norm_num
    norm_num [WEIGHT_DISTANCE, WEIGHT_ROW_JUMP] at h1 ⊢
    linarith
  · rw [edgeCostA]
    have h2 : Real.sqrt (15 ^ 2 + 90 ^ 2) < 91.25 := by
      refine (Real.sqrt_lt' (by norm_num)).mpr ?_
      norm_num
    norm_num [WEIGHT_DISTANCE, WEIGHT_ROW_JUMP] at h2 ⊢
    linarith

/-- C4 (confirmed): every node returned by `generateSuccessors` passes both
hard filters (span within `MAX_HAND_SPAN_MM`, pruning predicate false);
every node the Search Engine pops for expansion from the start configuration
satisfies the span bound; and every node of an accepted path satisfies the
span bound. -/
theorem C4_hard_filters_and_span_bound :
    (∀ (layout : Int → List ButtonPosition) (ip : NodeState → Bool)
      (c : NodeState) (e : MusicalEvent) (n : NodeState),
      n ∈ generateSuccessors layout ip c e →
        calculateSpanMM n.fingers ≤ MAX_HAND_SPAN_MM ∧ ip n = false) ∧
    (∀ (layout : Int → List ButtonPosition)
      (hfun : NodeState → List MusicalEvent → ℝ) (ip : NodeState → Bool)
      (cfg : CostConfig) (events : List MusicalEvent) (fuel : Nat)
      (n : NodeState),
      n ∈ poppedSeq layout hfun ip cfg events fuel [start_node hfun events] [] →
        calculateSpanMM n.fingers ≤ MAX_HAND_SPAN_MM) ∧
    (∀ (layout : Int → List ButtonPosition)
      (hfun : NodeState → List MusicalEvent → ℝ) (ip : NodeState → Bool)
      (cfg : CostConfig) (events : List MusicalEvent) (fuel : Nat)
      (ch : List NodeData),
      computeFingerings layout hfun ip cfg events fuel =
        SearchResult.solution ch →
        ∀ d ∈ ch, calculateSpanMM d.fingers ≤ MAX_HAND_SPAN_MM) := by
  have hstart : ∀ (hfun : NodeState → List MusicalEvent → ℝ)
      (events : List MusicalEvent),
      calculateSpanMM (start_node hfun events).fingers ≤ MAX_HAND_SPAN_MM := by
    intro hfun events
    rw [start_node_span]
    norm_num [MAX_HAND_SPAN_MM]
  refine ⟨?_, ?_, ?_⟩
  · intro layout ip c e n hn
    exact generateSuccessors_filters hn
  · intro layout hfun ip cfg events fuel n hn
    refine poppedSeq_inv layout hfun ip cfg events
      (fun m => calculateSpanMM m.fingers ≤ MAX_HAND_SPAN_MM) fuel
      [start_node hfun events] [] ?_ n hn
    intro m hm
    rw [List.mem_singleton] at hm
    subst hm
    exact hstart hfun events
  · intro layout hfun ip cfg events fuel ch hch
    have hinv := searchLoop_solution_inv layout hfun ip cfg events
      (fun m => calculateSpanMM m.fingers ≤ MAX_HAND_SPAN_MM ∧
        ∀ d ∈ m.parent, calculateSpanMM d.fingers ≤ MAX_HAND_SPAN_MM)
      fuel [start_node hfun events] [] ?_ ch hch
    · obtain ⟨cu, ⟨hcu, hpar⟩, hrec, -⟩ := hinv
      subst hrec
      intro d hd
      unfold reconstructPath at hd
      rcases List.mem_append.mp hd with hd | hd
      · exact hpar d (List.mem_reverse.mp hd)
      · rw [List.mem_singleton] at hd
        subst hd
        exact hcu
    · intro m hm
      rw [List.mem_singleton] at hm
      subst hm
      refine ⟨hstart hfun events, ?_⟩
      rw [start_node_parent]
      intro d hd
      exact absurd hd (List.not_mem_nil d)

/-- Witness for C4 at the Scenario A instance and the empty-input solution. -/
theorem C4_hard_filters_witness :
    (succA ∈ generateSuccessors layoutA ipA startA evA ∧
      calculateSpanMM succA.fingers ≤ MAX_HAND_SPAN_MM ∧ ipA succA = false) ∧
    (computeFingerings layoutA hfunA ipA cfgA [] 2 =
        SearchResult.solution [(start_node hfunA []).toNodeData] ∧
      ∀ d ∈ [(start_node hfunA []).toNodeData],
        calculateSpanMM d.fingers ≤ MAX_HAND_SPAN_MM) := by
  refine ⟨⟨succA_mem, C4_hard_filters_and_span_bound.1 layoutA ipA startA evA succA
    succA_mem⟩, ⟨computeFingerings_nil layoutA hfunA ipA cfgA 1, ?_⟩⟩
  exact C4_hard_filters_and_span_bound.2.2 layoutA hfunA ipA cfgA [] 2
    [(start_node hfunA []).toNodeData]
    (computeFingerings_nil layoutA hfunA ipA cfgA 1)

/-- C5 (confirmed): fingers locked by tied notes are copied unchanged from
the parent into every successor, so the finger that held a tied pitch holds
it again (same index, same button) at the next event. -/
theorem C5_tie_preservation (layout : Int → List ButtonPosition)
    (ip : NodeState → Bool) (c : NodeState) (e : MusicalEvent) (n : NodeState)
    (hn : n ∈ generateSuccessors layout ip c e) (note : Note)
    (hnote : note ∈ e.notes) (htied : note.tied_from_prev = true) (i : Fin 5)
    (hidx : findHolder c.fingers note.midi = some i) :
    n.fingers i = c.fingers i ∧
      ∃ b, c.fingers i = FingerState.pressing note.midi b :=
  ⟨generateSuccessors_tie_frame hn hnote htied hidx, findHolder_pressing hidx⟩

/-- Witness for C5: a hand holding MIDI 60 with the thumb, an event tying
that pitch over; the sole successor keeps the thumb unchanged. -/
theorem C5_tie_preservation_witness :
    succTied ∈ generateSuccessors layoutA ipA holdingState evTied ∧
    ({ midi := 60, tied_from_prev := true } : Note) ∈ evTied.notes ∧
    findHolder holdingState.fingers 60 = some 0 ∧
    (succTied.fingers 0 = holdingState.fingers 0 ∧
      ∃ b, holdingState.fingers 0 = FingerState.pressing 60 b) := by
  refine ⟨succTied_mem, by decide, findHolder_holding, ?_⟩
  exact C5_tie_preservation layoutA ipA holdingState evTied succTied succTied_mem
    { midi := 60, tied_from_prev := true } (by decide) rfl 0 findHolder_holding

/-- C6 (confirmed): the edge cost equals the spec-ordered combination — the
bellows-shift discount and the pivot factor act multiplicatively on the
additive terms only, the penalty terms are added unscaled, and the clamped
result is non-negative. -/
theorem C6_edge_cost_structure (cfg : CostConfig) (prev next : NodeState)
    (event : MusicalEvent) :
    calculateEdgeCost cfg prev next event = edgeCostSpec cfg prev next event ∧
    0 ≤ calculateEdgeCost cfg prev next event :=
  ⟨calculateEdgeCost_eq_spec cfg prev next event,
    calculateEdgeCost_nonneg cfg prev next event⟩

/-- C7 (confirmed): an event with a tied note whose pitch no current finger
holds makes `generateSuccessors` return the empty list, and consequently the
Search Engine enqueues nothing from that branch. -/
theorem C7_inconsistent_tie_returns_empty (layout : Int → List ButtonPosition)
    (ip : NodeState → Bool) (c : NodeState) (e : MusicalEvent)
    (hfun : NodeState → List MusicalEvent → ℝ) (cfg : CostConfig)
    (events : List MusicalEvent)
    (h : ∃ note ∈ e.notes, note.tied_from_prev = true ∧
      ∀ j, isHolding (c.fingers j) note.midi = false) :
    generateSuccessors layout ip c e = [] ∧
    pushImproved hfun cfg events c e (generateSuccessors layout ip c e) = [] := by
  obtain ⟨note, hnote, htied, hfree⟩ := h
  have hemp := @generateSuccessors_inconsistent_tie layout ip c e note hnote htied hfree
  exact ⟨hemp, by rw [hemp]; rfl⟩

/-- Witness for C7: the all-free start hand with an event tying MIDI 62. -/
theorem C7_inconsistent_tie_witness :
    (∃ note ∈ evBadTie.notes, note.tied_from_prev = true ∧
      ∀ j, isHolding (startA.fingers j) note.midi = false) ∧
    (generateSuccessors layoutA ipA startA evBadTie = [] ∧
      pushImproved hfunA cfgA [evBadTie] startA evBadTie
        (generateSuccessors layoutA ipA startA evBadTie) = []) := by
  have hh : ∃ note ∈ evBadTie.notes, note.tied_from_prev = true ∧
      ∀ j, isHolding (startA.fingers j) note.midi = false :=
    ⟨{ midi := 62, tied_from_prev := true }, by decide, rfl, fun j => rfl⟩
  exact ⟨hh, C7_inconsistent_tie_returns_empty layoutA ipA startA evBadTie
    hfunA cfgA [evBadTie] hh⟩

/-- C8 (confirmed, spec-modelled): under any node-expansion budget the
budgeted engine always returns — the optimal solution when the loop finishes
within budget, `NoFeasiblePath` when the open set empties, and, exactly when
the budget is exhausted mid-search, the path of the best-cost
completed-or-partial node found so far, marked as non-optimal. -/
theorem C8_budget_returns_best_effort (layout : Int → List ButtonPosition)
    (hfun : NodeState → List MusicalEvent → ℝ) (ip : NodeState → Bool)
    (cfg : CostConfig) (events : List MusicalEvent) (budget : Nat) :
    (∃ ch, computeFingerings layout hfun ip cfg events budget =
        SearchResult.solution ch ∧
      computeFingeringsBudgeted layout hfun ip cfg events budget =
        BudgetedResult.success ch true) ∨
    (computeFingerings layout hfun ip cfg events budget =
        SearchResult.failure ∧
      computeFingeringsBudgeted layout hfun ip cfg events budget =
        BudgetedResult.noFeasiblePath) ∨
    (computeFingerings layout hfun ip cfg events budget =
        SearchResult.outOfFuel ∧
      computeFingeringsBudgeted layout hfun ip cfg events budget =
        BudgetedResult.success
          (reconstructPath (bestOf (start_node hfun events)
            (poppedSeq layout hfun ip cfg events budget
              [start_node hfun events] []))) false) := by
  rcases budgetedLoop_refines layout hfun ip cfg events budget
      [start_node hfun events] [] (start_node hfun events) with
    ⟨ch, h1, h2⟩ | ⟨h1, h2⟩ | ⟨h1, h2⟩ | ⟨h1, h2⟩
  · exact Or.inl ⟨ch, h1, h2⟩
  · exact Or.inr (Or.inl ⟨h1, h2⟩)
  · exact absurd h1 (computeFingerings_not_indexError layout hfun ip cfg events budget)
  · exact Or.inr (Or.inr ⟨h1, h2⟩)

/-- C9 (confirmed, spec-modelled for the optional parameter): the start node
has all five fingers free, centroid at row 3 / column 0 (the keyboard middle
per the source comment), neutral bellows and zero accumulated cost; the
optional starting bellows state defaults to neutral when unspecified and is
used verbatim when given. -/
theorem C9_start_state_and_optional_bellows
    (hfun : NodeState → List MusicalEvent → ℝ) (events : List MusicalEvent) :
    (start_node hfun events).time_index = -1 ∧
    (∀ i, (start_node hfun events).fingers i = FingerState.free) ∧
    (start_node hfun events).centroid_row = 3 ∧
    (start_node hfun events).centroid_col = 0 ∧
    (start_node hfun events).bellows_state = Bellows.neutral ∧
    (start_node hfun events).g_score = 0 ∧
    startNodeWith hfun events none = start_node hfun events ∧
    ∀ b, (startNodeWith hfun events (some b)).bellows_state = b := by
  exact ⟨rfl, fun i => rfl, rfl, rfl, rfl, rfl, rfl, fun b => rfl⟩

/-- C10 (confirmed): successors inherit the parent's bellows state unchanged
(the event's direction is never written into the node), and one loop step
preserves any uniform bellows state of the open set — hence every edge cost
in the search compares the event's direction against the start node's
bellows state. -/
theorem C10_bellows_inherited :
    (∀ (layout : Int → List ButtonPosition) (ip : NodeState → Bool)
      (c : NodeState) (e : MusicalEvent) (n : NodeState),
      n ∈ generateSuccessors layout ip c e →
        n.bellows_state = c.bellows_state) ∧
    (∀ (layout : Int → List ButtonPosition)
      (hfun : NodeState → List MusicalEvent → ℝ) (ip : NodeState → Bool)
      (cfg : CostConfig) (events : List MusicalEvent) (opens : List NodeState)
      (closed : ClosedSet) (b : Bellows) (cur : NodeState)
      (o' : List NodeState) (c' : ClosedSet),
      searchStep layout hfun ip cfg events opens closed = StepOut.next cur o' c' →
      (∀ m ∈ opens, m.bellows_state = b) →
      cur.bellows_state = b ∧ ∀ m ∈ o', m.bellows_state = b) := by
  constructor
  · intro layout ip c e n hn
    exact generateSuccessors_bellows hn
  · intro layout hfun ip cfg events opens closed b cur o' c' hstep hall
    obtain ⟨hcur, hsub⟩ := searchStep_next_sub hstep
    exact ⟨hall cur hcur, fun m hm => hall m (hsub m hm)⟩

/-- Witness for C10: the Scenario A successor inherits the start node's
neutral bellows, and the first loop step keeps the open set neutral. -/
theorem C10_bellows_inherited_witness :
    succA.bellows_state = startA.bellows_state ∧
    startA.bellows_state = Bellows.neutral := by
  constructor
  · exact C10_bellows_inherited.1 layoutA ipA startA evA succA succA_mem
  · exact (C10_bellows_inherited.2 layoutA hfunA ipA cfgA [evA] [startA] []
      Bellows.neutral startA []
      [(calculateHash startA, startA.toNodeData)]
      (searchStep_start_cons layoutA hfunA ipA cfgA evA [])
      (fun m hm => by rw [List.mem_singleton] at hm; subst hm; rfl)).1

end Akkordio
